import Mathlib

/-!
Verification of the n29-climarisk ledger/projection/verification core.

The development shallowly embeds the JavaScript sources
(`services/api/src/index.js`, `services/worker/src/worker.js`) and the
schema/bootstrap (`infra/postgres/init.sql`) into Lean:

* JSON-like value trees (`JsValue`) model the structured payloads;
* `stableStringify` is a direct transcription of the canonical encoder;
* `Row` / `appendLedgerEvent` / `verifyLedgerEvents` model the ledger table,
  the append path and the audit verifier (the SHA-256 function is kept
  abstract as a parameter `h : String → String`, since every claim is about
  how the code composes the hash, not about SHA-256 itself);
* `decideRisk` transcribes the worker's rule engine over rational numbers
  (JavaScript doubles behave like the corresponding rationals on every
  comparison exercised here), with `null` inputs modelled by `Option`;
* `applyProjections` models the two projection writes;
* a reference-graph variant of the encoder (`stableStringifyRef`) models the
  JavaScript heap, where cyclic values exist and recursion consumes stack.
-/

namespace ClimaRisk

/-! ## String comparison

JavaScript's default `Array.prototype.sort()` comparator orders strings by
code units, which for the strings appearing here coincides with
lexicographic order on the characters.  `strLtb`/`strLEb` are executable
versions of that order; `strLEb_iff` ties them to Mathlib's linear order on
`String` so that sortedness statements can be phrased with `≤`. -/

def strLtb : List Char → List Char → Bool
  | [], [] => false
  | [], _ :: _ => true
  | _ :: _, [] => false
  | a :: as, b :: bs => if a < b then true else if b < a then false else strLtb as bs

/-- Boolean test for lexicographic (code-point) order on strings. -/
def strLEb (a b : String) : Bool := ! strLtb b.data a.data

theorem strLtb_iff_lex (as : List Char) : ∀ bs, strLtb as bs = true ↔ List.Lex (· < ·) as bs := by
  induction as with
  | nil =>
    intro bs
    cases bs with
    | nil =>
      simp only [strLtb, Bool.false_eq_true, false_iff]
      intro h; cases h
    | cons b bs => simp only [strLtb, true_iff]; exact List.Lex.nil
  | cons a as ih =>
    intro bs
    cases bs with
    | nil =>
      simp only [strLtb, Bool.false_eq_true, false_iff]
      intro h; cases h
    | cons b bs =>
      simp only [strLtb]
      by_cases hab : a < b
      · rw [if_pos hab]
        simp only [true_iff]
        exact List.Lex.rel hab
      · by_cases hba : b < a
        · rw [if_neg hab, if_pos hba]
          simp only [Bool.false_eq_true, false_iff]
          intro h
          cases h with
          | cons h => exact lt_irrefl a hba
          | rel h => exact hab h
        · have heq : a = b := le_antisymm (le_of_not_lt hba) (le_of_not_lt hab)
          subst heq
          rw [if_neg hab, if_neg hab, ih bs]
          constructor
          · intro h; exact List.Lex.cons h
          · intro h
            cases h with
            | cons h => exact h
            | rel h => exact absurd h hab

theorem strLEb_iff (a b : String) : strLEb a b = true ↔ a ≤ b := by
  rw [strLEb, Bool.not_eq_true', ← Bool.not_eq_true, strLtb_iff_lex]
  show ¬ List.Lex (· < ·) b.data a.data ↔ ¬ b < a
  exact not_congr (Iff.symm String.lt_iff_toList_lt)

theorem strLEb_total (a b : String) : strLEb a b = true ∨ strLEb b a = true := by
  rw [strLEb_iff, strLEb_iff]; exact le_total a b

theorem strLEb_trans {a b c : String} :
    strLEb a b = true → strLEb b c = true → strLEb a c = true := by
  rw [strLEb_iff, strLEb_iff, strLEb_iff]; exact le_trans

theorem strLEb_antisymm {a b : String} :
    strLEb a b = true → strLEb b a = true → a = b := by
  rw [strLEb_iff, strLEb_iff]; exact le_antisymm

/-! ## JSON-like value trees

Mutual inductives (instead of a nested `List`) keep every function below
structurally recursive, hence fully reducible by the kernel.  `nonfinite`
stands for the non-finite doubles (`NaN`, `±Infinity`); `undefined` is not a
separate constructor because `stableStringify` renders it exactly like
`null` in every position the model covers. -/

mutual

inductive JsValue where
  | null : JsValue
  | bool (b : Bool) : JsValue
  | num (q : ℚ) : JsValue
  | nonfinite : JsValue
  | str (s : String) : JsValue
  | arr (xs : JsList) : JsValue
  | obj (kvs : JsPairs) : JsValue

inductive JsList where
  | nil : JsList
  | cons (hd : JsValue) (tl : JsList) : JsList

inductive JsPairs where
  | nil : JsPairs
  | cons (key : String) (val : JsValue) (tl : JsPairs) : JsPairs

end

/-- Conversion of the pair spine to an ordinary list (insertion order). -/
def JsPairs.toList : JsPairs → List (String × JsValue)
  | .nil => []
  | .cons k v tl => (k, v) :: tl.toList

/-- Builds a pair spine from an ordinary list (insertion order). -/
def JsPairs.ofList : List (String × JsValue) → JsPairs
  | [] => .nil
  | (k, v) :: tl => .cons k v (ofList tl)

theorem JsPairs.toList_ofList (l : List (String × JsValue)) :
    (JsPairs.ofList l).toList = l := by
  induction l with
  | nil => rfl
  | cons p tl ih => cases p; simp [JsPairs.ofList, JsPairs.toList, ih]

/-! ## Canonical encoder (`stableStringify`)

Transcribed from `stableStringify` in `services/api/src/index.js` lines
14-26 (the worker carries a character-identical copy at lines 11-23).  The
JavaScript sorts the object keys with `Object.keys(v).sort()` (code-unit
order; keys of a JavaScript object are unique) and then renders each
`JSON.stringify(k) + ":" + v[k]` pair; rendering a value does not depend on
its position, so the model renders the pairs first and then sorts the
rendered pairs by key, which agrees with the source whenever the keys are
distinct.  `ratNumeral` stands in for JavaScript's `String(number)` on
finite doubles: like it, it is deterministic and injective; no claim
inspects the digits themselves. -/

def hexDigit (n : Nat) : Char :=
  if n < 10 then Char.ofNat (48 + n) else Char.ofNat (87 + n)

/-- Escapes one character the way `JSON.stringify` escapes string contents. -/
def escapeChar (c : Char) : String :=
  if c = '"' then "\\\""
  else if c = '\\' then "\\\\"
  else if c = '\n' then "\\n"
  else if c = '\r' then "\\r"
  else if c = '\t' then "\\t"
  else if c = '\x08' then "\\b"
  else if c = '\x0c' then "\\f"
  else if c.val < 0x20 then
    "\\u00" ++ String.mk [hexDigit (c.val.toNat / 16), hexDigit (c.val.toNat % 16)]
  else String.mk [c]

/-- Models `JSON.stringify` applied to a string. -/
def jsonQuote (s : String) : String :=
  "\"" ++ String.join (s.data.map escapeChar) ++ "\""

/-- Models JavaScript `String(v)` on a finite double. -/
def ratNumeral (q : ℚ) : String :=
  if q.den = 1 then toString q.num else toString q.num ++ "/" ++ toString q.den

/-- Comparator used on rendered key/value pairs: ascending key order. -/
def keyLE (a b : String × String) : Prop := strLEb a.1 b.1 = true

instance : DecidableRel keyLE :=
  fun a b => inferInstanceAs (Decidable (strLEb a.1 b.1 = true))

/-- Sorts rendered `(key, renderedValue)` pairs by key, as the source's
`Object.keys(v).sort()` does with unique keys. -/
def sortRendered (l : List (String × String)) : List (String × String) :=
  List.insertionSort keyLE l

/-- Renders one sorted pair, `JSON.stringify(k) + ":" + value`. -/
def renderKV (p : String × String) : String := jsonQuote p.1 ++ ":" ++ p.2

mutual

/-- Transcription of `stableStringify` (api `index.js` lines 14-26). -/
def stableStringify : JsValue → String
  | .null => "null"
  | .bool b => cond b "true" "false"
  | .num q => ratNumeral q
  | .nonfinite => "null"
  | .str s => jsonQuote s
  | .arr xs => "[" ++ String.intercalate "," (renderElems xs) ++ "]"
  | .obj kvs =>
      "\x7b" ++ String.intercalate "," ((sortRendered (renderPairs kvs)).map renderKV) ++ "\x7d"

/-- Renders the elements of an array, in order. -/
def renderElems : JsList → List String
  | .nil => []
  | .cons x tl => stableStringify x :: renderElems tl

/-- Renders the values of an object's pairs, keeping insertion order. -/
def renderPairs : JsPairs → List (String × String)
  | .nil => []
  | .cons k v tl => (k, stableStringify v) :: renderPairs tl

end

theorem renderPairs_eq_map : ∀ kvs : JsPairs,
    renderPairs kvs = kvs.toList.map (fun p => (p.1, stableStringify p.2))
  | .nil => rfl
  | .cons k v tl => by
      simp only [renderPairs, JsPairs.toList, List.map_cons, List.cons.injEq]
      exact ⟨trivial, renderPairs_eq_map tl⟩

example : stableStringify (.obj (.cons "b" .null (.cons "a" (.bool true) .nil)))
    = "\x7b\"a\":true,\"b\":null\x7d" := by decide

/-! ## Ledger model

One `Row` is one row of the `ledger_events` table (`init.sql` lines 4-11):
serial `id`, `event_type`, `payload` (JSONB), `prev_hash`, and `event_hash`
with a global uniqueness constraint.  The hash function is abstract
(`h : String → String`); the JavaScript instantiates it with lowercase-hex
SHA-256 (`sha256Hex`).  A failed query/insert (empty `SELECT` dereferenced,
or a uniqueness violation) surfaces as `none`, modelling the thrown
exception. -/

structure Row where
  id : Nat
  event_type : String
  payload : JsValue
  prev_hash : String
  event_hash : String

/-- Builds the object `{ event_type: eventType, payload: payloadObj }` that
both `appendLedgerEvent` and the verifier canonicalize. -/
def payloadObj (eventType : String) (payload : JsValue) : JsValue :=
  .obj (.cons "event_type" (.str eventType) (.cons "payload" payload .nil))

/-- Models `prevHash + "\n" + stableStringify({event_type, payload})`. -/
def canonicalFor (prevHash eventType : String) (payload : JsValue) : String :=
  prevHash ++ "\n" ++ stableStringify (payloadObj eventType payload)

/-- Canonical input recomputed by the verifier for a stored row. -/
def rowCanonical (e : Row) : String :=
  canonicalFor e.prev_hash e.event_type e.payload

/-- Models `select event_hash from ledger_events order by id desc limit 1`
followed by `last.rows[0].event_hash`: `none` when the table is empty (the
JavaScript dereferences `undefined` and throws there). -/
def readLastEventHash (rows : List Row) : Option String :=
  rows.getLast?.map (fun r => r.event_hash)

/-- Serial id the database would assign to the next inserted row. -/
def nextRowId (rows : List Row) : Nat :=
  match rows.getLast? with
  | none => 1
  | some r => r.id + 1

/-- Models the parameterized `insert into ledger_events(...)`; the only
guard the schema provides is the uniqueness constraint on `event_hash`
(a violation makes the query throw, modelled as `none`). -/
def insertLedgerRow (rows : List Row) (t : String) (p : JsValue)
    (prevHash eventHash : String) : Option (List Row) :=
  if rows.any (fun r => r.event_hash == eventHash) then none
  else some (rows ++ [⟨nextRowId rows, t, p, prevHash, eventHash⟩])

/-- Transcription of `appendLedgerEvent` (api `index.js` lines 76-89; the
worker's copy at `worker.js` lines 89-102 is identical except that it
returns only the hash): read the last row's `event_hash`, compose the
canonical string, hash it, insert, return the new hash.  The two database
calls are separate; this function is the run in which they are adjacent. -/
def appendLedgerEvent (h : String → String) (t : String) (p : JsValue)
    (rows : List Row) : Option (List Row × String) :=
  (readLastEventHash rows).bind fun prevHash =>
    let eventHash := h (canonicalFor prevHash t p)
    (insertLedgerRow rows t p prevHash eventHash).map fun rows2 => (rows2, eventHash)

/-- Sequential composition of appends (each one completing before the next
starts). -/
def appendN (h : String → String) : List (String × JsValue) → List Row → Option (List Row)
  | [], rows => some rows
  | (t, p) :: rest, rows =>
      (appendLedgerEvent h t p rows).bind fun r => appendN h rest r.1

/-- Canonical string hard-coded by the genesis bootstrap
(`init.sql` lines 49-60): `'0' || E'\n' || '{"event_type":"GENESIS","payload":{"note":"n29 climarisk genesis"}}'`. -/
def genesisCanonical : String :=
  "0\n\x7b\"event_type\":\"GENESIS\",\"payload\":\x7b\"note\":\"n29 climarisk genesis\"\x7d\x7d"

/-- JSONB payload of the genesis event. -/
def genesisPayload : JsValue := .obj (.cons "note" (.str "n29 climarisk genesis") .nil)

/-- Row inserted by the genesis bootstrap when the ledger is empty. -/
def genesisRow (h : String → String) : Row :=
  ⟨1, "GENESIS", genesisPayload, "0", h genesisCanonical⟩

/-- Ledger state right after `init.sql` ran on an empty database. -/
def genesisLedger (h : String → String) : List Row := [genesisRow h]

/-- Checks that the SQL literal agrees with what the verifier recomputes. -/
theorem genesisCanonical_eq :
    genesisCanonical = rowCanonical (genesisRow (fun s => s)) := by decide

/-! ## Audit verifier

Transcription of `GET /api/read/audit/verify` (api `index.js` lines
143-176).  The route walks all rows in ascending id order, recomputes each
hash, checks the genesis sentinel on the first row and the `prev_hash` link
on every later one, accumulates structured errors, never stops early, and
never throws (it is a total function here).  In the source `ok` starts
`true` and is set to `false` exactly when an error is pushed, so `ok` is
`errors.isEmpty`. -/

inductive VerifyError where
  | hashMismatch (id : String) (expected got : String)
  | genesisPrevHashNotZero (id : String) (prevHash : String)
  | prevHashLinkBroken (id : String) (prevHash shouldBe : String)
deriving DecidableEq

structure VerifyResult where
  ok : Bool
  count : Nat
  errors : List VerifyError
deriving DecidableEq

/-- Per-row recomputation check: `expected` is the stored hash, `got` the
recomputed one, exactly as the route labels them. -/
def rowHashErrors (h : String → String) (e : Row) : List VerifyError :=
  if h (rowCanonical e) = e.event_hash then []
  else [.hashMismatch (toString e.id) e.event_hash (h (rowCanonical e))]

/-- Per-row chain-link check: sentinel `"0"` for the first row, equality
with the predecessor's `event_hash` for every later row. -/
def rowLinkErrors (prev : Option Row) (e : Row) : List VerifyError :=
  match prev with
  | none =>
      if e.prev_hash = "0" then []
      else [.genesisPrevHashNotZero (toString e.id) e.prev_hash]
  | some p =>
      if e.prev_hash = p.event_hash then []
      else [.prevHashLinkBroken (toString e.id) e.prev_hash p.event_hash]

/-- Error accumulation of the verifier's single ascending scan. -/
def verifyGo (h : String → String) (prev : Option Row) : List Row → List VerifyError
  | [] => []
  | e :: rest => rowHashErrors h e ++ rowLinkErrors prev e ++ verifyGo h (some e) rest

/-- Result of `GET /api/read/audit/verify` over the given rows. -/
def verifyLedgerEvents (h : String → String) (rows : List Row) : VerifyResult :=
  let errs := verifyGo h none rows
  ⟨errs.isEmpty, rows.length, errs⟩

/-! ## Chain validity -/

/-- Hash referenced by the next row: the predecessor's `event_hash`, or the
sentinel `"0"` at the head of the ledger. -/
def prevHashRef : Option Row → String
  | none => "0"
  | some p => p.event_hash

/-- Structural well-formedness of a ledger suffix following `prev`: every
stored hash is the hash of its canonical string and every link matches. -/
def chainOk (h : String → String) : Option Row → List Row → Prop
  | _, [] => True
  | prev, e :: rest =>
      e.event_hash = h (rowCanonical e)
      ∧ e.prev_hash = prevHashRef prev
      ∧ chainOk h (some e) rest

theorem verifyGo_eq_nil_of_chainOk (h : String → String) :
    ∀ (rows : List Row) (prev : Option Row), chainOk h prev rows → verifyGo h prev rows = [] := by
  intro rows
  induction rows with
  | nil => intro prev _; rfl
  | cons e rest ih =>
    intro prev hok
    obtain ⟨hhash, hlink, hrest⟩ := hok
    have h1 : rowHashErrors h e = [] := by rw [rowHashErrors, if_pos hhash.symm]
    have h2 : rowLinkErrors prev e = [] := by
      cases prev with
      | none => simp [rowLinkErrors, hlink, prevHashRef]
      | some p => simp [rowLinkErrors, hlink, prevHashRef]
    rw [verifyGo, h1, h2, ih (some e) hrest]
    rfl

/-- Hash the append path will read after `rows`, given the hash `prev`
preceding them. -/
def lastHashRef (prev : Option Row) (rows : List Row) : String :=
  match rows.getLast? with
  | none => prevHashRef prev
  | some q => q.event_hash

theorem chainOk_append (h : String → String) :
    ∀ (rows : List Row) (prev : Option Row) (r : Row),
      chainOk h prev rows →
      r.event_hash = h (rowCanonical r) →
      r.prev_hash = lastHashRef prev rows →
      chainOk h prev (rows ++ [r]) := by
  intro rows
  induction rows with
  | nil =>
    intro prev r _ hhash hlink
    exact ⟨hhash, hlink, trivial⟩
  | cons e rest ih =>
    intro prev r hok hhash hlink
    obtain ⟨h1, h2, h3⟩ := hok
    refine ⟨h1, h2, ih (some e) r h3 hhash ?_⟩
    rw [hlink]
    cases rest with
    | nil => rfl
    | cons f fs => rfl

theorem chainOk_get (h : String → String) :
    ∀ (rows : List Row) (prev : Option Row), chainOk h prev rows →
      ∀ (i : Nat) (hi : i < rows.length),
        (rows.get ⟨i, hi⟩).event_hash = h (rowCanonical (rows.get ⟨i, hi⟩)) := by
  intro rows
  induction rows with
  | nil => intro prev _ i hi; exact absurd hi (Nat.not_lt_zero i)
  | cons e rest ih =>
    intro prev hok i hi
    obtain ⟨h1, _, h3⟩ := hok
    cases i with
    | zero => exact h1
    | succ j => exact ih (some e) h3 j (Nat.lt_of_succ_lt_succ hi)

theorem readLastEventHash_of_ne_nil (rows : List Row) (hne : rows ≠ []) :
    readLastEventHash rows = some ((rows.getLast hne).event_hash) := by
  rw [readLastEventHash, List.getLast?_eq_getLast_of_ne_nil hne, Option.map_some']

theorem lastHashRef_of_ne_nil (prev : Option Row) (rows : List Row) (hne : rows ≠ []) :
    lastHashRef prev rows = (rows.getLast hne).event_hash := by
  rw [lastHashRef, List.getLast?_eq_getLast_of_ne_nil hne]

/-- Shape of a successful append: the exact row that was inserted and the
returned hash, both determined by the last stored row. -/
theorem appendLedgerEvent_some_eq (h : String → String) (t : String) (p : JsValue)
    (rows rows' : List Row) (eh : String) (hne : rows ≠ [])
    (hs : appendLedgerEvent h t p rows = some (rows', eh)) :
    eh = h (canonicalFor ((rows.getLast hne).event_hash) t p)
    ∧ rows' = rows ++ [⟨nextRowId rows, t, p, (rows.getLast hne).event_hash, eh⟩] := by
  rw [appendLedgerEvent, readLastEventHash_of_ne_nil rows hne] at hs
  simp only [Option.some_bind] at hs
  by_cases hdup :
      (rows.any fun r => r.event_hash == h (canonicalFor ((rows.getLast hne).event_hash) t p)) = true
  · rw [insertLedgerRow, if_pos hdup] at hs
    simp at hs
  · rw [insertLedgerRow, if_neg hdup] at hs
    simp only [Option.map_some', Option.some.injEq, Prod.mk.injEq] at hs
    obtain ⟨hrows, heh⟩ := hs
    subst heh
    exact ⟨rfl, hrows.symm⟩

theorem chainOk_appendLedgerEvent (h : String → String) (t : String) (p : JsValue)
    (rows rows' : List Row) (eh : String) (hne : rows ≠ [])
    (hok : chainOk h none rows)
    (hs : appendLedgerEvent h t p rows = some (rows', eh)) :
    chainOk h none rows' ∧ rows'.length = rows.length + 1 ∧ rows' ≠ [] := by
  obtain ⟨heh, hrows⟩ := appendLedgerEvent_some_eq h t p rows rows' eh hne hs
  subst hrows
  refine ⟨?_, by simp, by simp⟩
  apply chainOk_append h rows none _ hok
  · rw [heh]; rfl
  · rw [lastHashRef_of_ne_nil none rows hne]

theorem appendN_chainOk (h : String → String) :
    ∀ (evs : List (String × JsValue)) (rows led : List Row),
      rows ≠ [] → chainOk h none rows → appendN h evs rows = some led →
      chainOk h none led ∧ led.length = rows.length + evs.length ∧ led ≠ [] := by
  intro evs
  induction evs with
  | nil =>
    intro rows led hne hok hs
    rw [appendN, Option.some.injEq] at hs
    subst hs
    exact ⟨hok, rfl, hne⟩
  | cons ev rest ih =>
    intro rows led hne hok hs
    obtain ⟨t, p⟩ := ev
    rw [appendN] at hs
    cases hmid : appendLedgerEvent h t p rows with
    | none => rw [hmid] at hs; simp at hs
    | some r =>
      rw [hmid] at hs
      simp only [Option.some_bind] at hs
      obtain ⟨hok', hlen', hne'⟩ :=
        chainOk_appendLedgerEvent h t p rows r.1 r.2 hne hok (by rw [hmid])
      obtain ⟨hokl, hlenl, hnel⟩ := ih r.1 led hne' hok' hs
      refine ⟨hokl, ?_, hnel⟩
      rw [hlenl, hlen', List.length_cons]
      omega

theorem rowCanonical_genesisRow (h : String → String) :
    rowCanonical (genesisRow h) = genesisCanonical := by
  show canonicalFor "0" "GENESIS" genesisPayload = genesisCanonical
  decide

theorem chainOk_genesisLedger (h : String → String) : chainOk h none (genesisLedger h) :=
  ⟨congrArg h (rowCanonical_genesisRow h).symm, rfl, trivial⟩

/-- Concrete stand-in hash used to evaluate the generic theorems on
explicit inputs (injective, like a collision-free hash). -/
def idHash : String → String := fun s => s

/-- C1, corrected: after `n` sequential successful appends onto the
bootstrapped ledger, `verify()` scans the genesis row plus the `n` appended
rows, so it returns `ok = true`, an empty error list, and
`count = n + 1` (the number of rows scanned), not `count = n`. -/
theorem verify_ok_after_sequential_appends (h : String → String)
    (evs : List (String × JsValue)) (led : List Row)
    (hs : appendN h evs (genesisLedger h) = some led) :
    verifyLedgerEvents h led = ⟨true, evs.length + 1, []⟩ := by
  obtain ⟨hok, hlen, -⟩ := appendN_chainOk h evs (genesisLedger h) led
    (by simp [genesisLedger]) (chainOk_genesisLedger h) hs
  have hnil := verifyGo_eq_nil_of_chainOk h led none hok
  have hcount : led.length = evs.length + 1 := by
    rw [hlen]
    simp [genesisLedger, Nat.add_comm]
  simp [verifyLedgerEvents, hnil, hcount]

/-- C1, counterexample to the claim as stated: zero appends onto the
bootstrapped ledger (`n = 0`).  `verify()` scans the genesis row, so
`count = 1`, whereas the claim requires `count = n = 0`. -/
theorem verify_count_counterexample :
    (verifyLedgerEvents idHash (genesisLedger idHash)).count = 1
    ∧ ¬ (verifyLedgerEvents idHash (genesisLedger idHash)).count = 0 := by decide

theorem verify_ok_after_sequential_appends_witness :
    appendN idHash [("E", JsValue.null)] (genesisLedger idHash)
      = some ((appendN idHash [("E", JsValue.null)] (genesisLedger idHash)).getD [])
    ∧ verifyLedgerEvents idHash
        ((appendN idHash [("E", JsValue.null)] (genesisLedger idHash)).getD [])
      = ⟨true, 2, []⟩ :=
  ⟨rfl, verify_ok_after_sequential_appends idHash [("E", JsValue.null)] _ rfl⟩

/-- C3, corrected: `append(eventType, payload)` never uses the sentinel
`"0"`.  On a non-empty ledger it reads the most recent `event_hash` as
`prevHash`, computes `eventHash = h(prevHash + "\n" +
Canonical({event_type, payload}))`, persists exactly one new row with that
`prev_hash`/`event_hash` pair, and returns that hash; on an empty ledger it
does not append a sentinel-anchored event but fails
(`last.rows[0].event_hash` dereferences `undefined` and throws, `none`
here) — the sentinel row is written only by the `init.sql` bootstrap. -/
theorem appendLedgerEvent_spec (h : String → String) (t : String) (p : JsValue) :
    appendLedgerEvent h t p [] = none
    ∧ ∀ (rows rows' : List Row) (eh prevHash : String),
        readLastEventHash rows = some prevHash →
        appendLedgerEvent h t p rows = some (rows', eh) →
        eh = h (canonicalFor prevHash t p)
        ∧ rows' = rows ++ [⟨nextRowId rows, t, p, prevHash, eh⟩] := by
  refine ⟨rfl, ?_⟩
  intro rows rows' eh prevHash hread hs
  rw [appendLedgerEvent, hread] at hs
  simp only [Option.some_bind] at hs
  by_cases hdup : (rows.any fun r => r.event_hash == h (canonicalFor prevHash t p)) = true
  · rw [insertLedgerRow, if_pos hdup] at hs
    simp at hs
  · rw [insertLedgerRow, if_neg hdup] at hs
    simp only [Option.map_some', Option.some.injEq, Prod.mk.injEq] at hs
    obtain ⟨hrows, heh⟩ := hs
    subst heh
    exact ⟨rfl, hrows.symm⟩

/-- C3, counterexample to the claim as stated: on the empty ledger the
claim requires an append that uses prevHash `"0"` and persists an event;
the code instead throws before computing anything (modelled `none`), so no
row is persisted and no hash is returned. -/
theorem appendLedgerEvent_empty_counterexample :
    appendLedgerEvent idHash "CMD_LOCATION_ADD" JsValue.null [] = none := rfl

/-- Hash produced by a sample append of `("E", null)` onto the genesis
ledger under `idHash`. -/
def sampleEventHash : String :=
  idHash (canonicalFor (genesisRow idHash).event_hash "E" JsValue.null)

/-- Row that sample append inserts. -/
def sampleAppendedRow : Row :=
  ⟨2, "E", JsValue.null, (genesisRow idHash).event_hash, sampleEventHash⟩

theorem appendLedgerEvent_spec_witness :
    readLastEventHash (genesisLedger idHash) = some (genesisRow idHash).event_hash
    ∧ appendLedgerEvent idHash "E" JsValue.null (genesisLedger idHash)
        = some (genesisLedger idHash ++ [sampleAppendedRow], sampleEventHash)
    ∧ sampleEventHash = idHash (canonicalFor (genesisRow idHash).event_hash "E" JsValue.null)
    ∧ genesisLedger idHash ++ [sampleAppendedRow]
        = genesisLedger idHash ++ [⟨nextRowId (genesisLedger idHash), "E", JsValue.null,
            (genesisRow idHash).event_hash, sampleEventHash⟩] := by
  refine ⟨rfl, rfl, ?_⟩
  exact (appendLedgerEvent_spec idHash "E" JsValue.null).2 (genesisLedger idHash)
    (genesisLedger idHash ++ [sampleAppendedRow]) sampleEventHash
    (genesisRow idHash).event_hash rfl rfl

/-! ## Tamper detection (C2) -/

theorem string_eq_of_data_eq {a b : String} (h : a.data = b.data) : a = b := by
  cases a; cases b; exact congrArg String.mk h

theorem sortRendered_payload_pair (x y : String) :
    sortRendered [("event_type", y), ("payload", x)] = [("event_type", y), ("payload", x)] := by
  simp only [sortRendered, List.insertionSort, List.orderedInsert]
  rw [if_pos]
  show strLEb "event_type" "payload" = true
  decide

theorem stableStringify_payloadObj (t : String) (p : JsValue) :
    stableStringify (payloadObj t p)
      = "\x7b" ++ ("\"event_type\"" ++ ":" ++ jsonQuote t
          ++ "," ++ ("\"payload\"" ++ ":" ++ stableStringify p)) ++ "\x7d" := by
  have hq1 : jsonQuote "event_type" = "\"event_type\"" := by decide
  have hq2 : jsonQuote "payload" = "\"payload\"" := by decide
  show "\x7b" ++ String.intercalate ","
      ((sortRendered (renderPairs (.cons "event_type" (.str t)
        (.cons "payload" p .nil)))).map renderKV) ++ "\x7d" = _
  rw [renderPairs, renderPairs, renderPairs]
  show "\x7b" ++ String.intercalate ","
      ((sortRendered [("event_type", jsonQuote t), ("payload", stableStringify p)]).map renderKV)
      ++ "\x7d" = _
  rw [sortRendered_payload_pair, List.map_cons, List.map_cons, List.map_nil]
  rw [renderKV, renderKV, hq1, hq2]
  rfl

theorem canonicalFor_payload_inj (prevHash t : String) {p p' : JsValue}
    (he : canonicalFor prevHash t p = canonicalFor prevHash t p') :
    stableStringify p = stableStringify p' := by
  rw [canonicalFor, canonicalFor, stableStringify_payloadObj, stableStringify_payloadObj] at he
  have hd := congrArg String.data he
  simp only [String.data_append, List.append_assoc] at hd
  have h1 := List.append_cancel_left hd
  have h2 := List.append_cancel_left h1
  have h3 := List.append_cancel_left h2
  have h4 := List.append_cancel_left h3
  have h5 := List.append_cancel_left h4
  have h6 := List.append_cancel_left h5
  have h7 := List.append_cancel_left h6
  have h8 := List.append_cancel_left h7
  have h9 := List.append_cancel_left h8
  exact string_eq_of_data_eq (List.append_cancel_right h9)

theorem mismatch_mem_verifyGo (h : String → String) :
    ∀ (rows : List Row) (prev : Option Row) (i : Nat) (hi : i < rows.length),
      h (rowCanonical (rows.get ⟨i, hi⟩)) ≠ (rows.get ⟨i, hi⟩).event_hash →
      VerifyError.hashMismatch (toString (rows.get ⟨i, hi⟩).id)
          ((rows.get ⟨i, hi⟩).event_hash) (h (rowCanonical (rows.get ⟨i, hi⟩)))
        ∈ verifyGo h prev rows := by
  intro rows
  induction rows with
  | nil => intro prev i hi; exact absurd hi (Nat.not_lt_zero i)
  | cons e rest ih =>
    intro prev i hi hne
    cases i with
    | zero =>
      rw [verifyGo]
      apply List.mem_append_left
      apply List.mem_append_left
      rw [rowHashErrors, if_neg]
      · exact List.mem_singleton.mpr rfl
      · exact fun hh => hne hh
    | succ j =>
      rw [verifyGo]
      apply List.mem_append_right
      exact ih (some e) j (Nat.lt_of_succ_lt_succ hi) hne

theorem verify_ok_false_of_mem (h : String → String) (rows : List Row) (err : VerifyError)
    (hm : err ∈ verifyGo h none rows) : (verifyLedgerEvents h rows).ok = false := by
  show (verifyGo h none rows).isEmpty = false
  cases hgo : verifyGo h none rows with
  | nil => rw [hgo] at hm; cases hm
  | cons a l => rfl

/-- C2, confirmed: mutating the stored payload (to one with a different
canonical encoding — an encoding-invisible edit is invisible to any
recomputation, and the spec's detection promise is likewise up to hash
collision, hence the injectivity hypothesis on the hash) or mutating the
stored `event_hash` of row `i` of a well-formed ledger makes `verify()`
report `ok = false` with a `hash_mismatch` entry for row `i` carrying the
stored (`expected`) and recomputed (`got`) hash, while the scan still
covers all rows (`count` is the full, unchanged row count) and, being a
total function, never throws. -/
theorem verify_tamper_detection (h : String → String) (hinj : Function.Injective h)
    (rows : List Row) (i : Nat) (hi : i < rows.length)
    (hchain : chainOk h none rows) :
    (∀ p' : JsValue,
       stableStringify p' ≠ stableStringify (rows.get ⟨i, hi⟩).payload →
       (verifyLedgerEvents h (rows.set i { rows.get ⟨i, hi⟩ with payload := p' })).ok = false
       ∧ (verifyLedgerEvents h (rows.set i { rows.get ⟨i, hi⟩ with payload := p' })).count
           = rows.length
       ∧ VerifyError.hashMismatch (toString (rows.get ⟨i, hi⟩).id)
           ((rows.get ⟨i, hi⟩).event_hash)
           (h (rowCanonical { rows.get ⟨i, hi⟩ with payload := p' }))
         ∈ (verifyLedgerEvents h (rows.set i { rows.get ⟨i, hi⟩ with payload := p' })).errors)
    ∧ (∀ eh' : String,
       eh' ≠ (rows.get ⟨i, hi⟩).event_hash →
       (verifyLedgerEvents h (rows.set i { rows.get ⟨i, hi⟩ with event_hash := eh' })).ok = false
       ∧ (verifyLedgerEvents h (rows.set i { rows.get ⟨i, hi⟩ with event_hash := eh' })).count
           = rows.length
       ∧ VerifyError.hashMismatch (toString (rows.get ⟨i, hi⟩).id) eh'
           (h (rowCanonical (rows.get ⟨i, hi⟩)))
         ∈ (verifyLedgerEvents h (rows.set i { rows.get ⟨i, hi⟩ with event_hash := eh' })).errors) := by
  have hstored := chainOk_get h rows none hchain i hi
  constructor
  · intro p' hdiff
    have hlen : (rows.set i { rows.get ⟨i, hi⟩ with payload := p' }).length = rows.length :=
      List.length_set rows i _
    have hi' : i < (rows.set i { rows.get ⟨i, hi⟩ with payload := p' }).length := by
      rw [hlen]; exact hi
    have hget : (rows.set i { rows.get ⟨i, hi⟩ with payload := p' }).get ⟨i, hi'⟩
        = { rows.get ⟨i, hi⟩ with payload := p' } := by
      simp [List.get_eq_getElem, List.getElem_set_self]
    have hmis : h (rowCanonical { rows.get ⟨i, hi⟩ with payload := p' })
        ≠ ({ rows.get ⟨i, hi⟩ with payload := p' } : Row).event_hash := by
      intro hcontra
      have hcontra' : h (canonicalFor (rows.get ⟨i, hi⟩).prev_hash
          (rows.get ⟨i, hi⟩).event_type p') = (rows.get ⟨i, hi⟩).event_hash := hcontra
      apply hdiff
      apply canonicalFor_payload_inj (rows.get ⟨i, hi⟩).prev_hash (rows.get ⟨i, hi⟩).event_type
      apply hinj
      show h (canonicalFor _ _ p') = h (canonicalFor _ _ (rows.get ⟨i, hi⟩).payload)
      rw [hcontra']
      exact hstored
    have hmem := mismatch_mem_verifyGo h (rows.set i { rows.get ⟨i, hi⟩ with payload := p' })
      none i hi' (by rw [hget]; exact hmis)
    rw [hget] at hmem
    exact ⟨verify_ok_false_of_mem h _ _ hmem, hlen, hmem⟩
  · intro eh' hdiff
    have hlen : (rows.set i { rows.get ⟨i, hi⟩ with event_hash := eh' }).length = rows.length :=
      List.length_set rows i _
    have hi' : i < (rows.set i { rows.get ⟨i, hi⟩ with event_hash := eh' }).length := by
      rw [hlen]; exact hi
    have hget : (rows.set i { rows.get ⟨i, hi⟩ with event_hash := eh' }).get ⟨i, hi'⟩
        = { rows.get ⟨i, hi⟩ with event_hash := eh' } := by
      simp [List.get_eq_getElem, List.getElem_set_self]
    have hmis : h (rowCanonical { rows.get ⟨i, hi⟩ with event_hash := eh' })
        ≠ ({ rows.get ⟨i, hi⟩ with event_hash := eh' } : Row).event_hash := by
      show h (rowCanonical (rows.get ⟨i, hi⟩)) ≠ eh'
      rw [← hstored]
      exact fun hh => hdiff hh.symm
    have hmem := mismatch_mem_verifyGo h (rows.set i { rows.get ⟨i, hi⟩ with event_hash := eh' })
      none i hi' (by rw [hget]; exact hmis)
    rw [hget] at hmem
    exact ⟨verify_ok_false_of_mem h _ _ hmem, hlen, hmem⟩

theorem verify_tamper_detection_witness :
    Function.Injective idHash
    ∧ chainOk idHash none (genesisLedger idHash)
    ∧ stableStringify JsValue.null ≠ stableStringify (genesisRow idHash).payload
    ∧ ((verifyLedgerEvents idHash ((genesisLedger idHash).set 0
          { genesisRow idHash with payload := JsValue.null })).ok = false
       ∧ (verifyLedgerEvents idHash ((genesisLedger idHash).set 0
          { genesisRow idHash with payload := JsValue.null })).count = 1
       ∧ VerifyError.hashMismatch (toString (genesisRow idHash).id)
           ((genesisRow idHash).event_hash)
           (idHash (rowCanonical { genesisRow idHash with payload := JsValue.null }))
         ∈ (verifyLedgerEvents idHash ((genesisLedger idHash).set 0
            { genesisRow idHash with payload := JsValue.null })).errors) := by
  refine ⟨fun a b hab => hab, chainOk_genesisLedger idHash, by decide, ?_⟩
  exact (verify_tamper_detection idHash (fun a b hab => hab) (genesisLedger idHash) 0
    (by decide) (chainOk_genesisLedger idHash)).1 JsValue.null (by decide)

/-! ## Decision rule engine

Transcription of `decideRisk` (`worker.js` lines 32-52).  Inputs are
JavaScript numbers or `null` (`Option ℚ`): in a JavaScript relational
comparison `null` coerces to `0`, which `jge`/`jle` reproduce with
`Option.getD 0`.  The source sorts the matched rules with
`a.id.localeCompare(b.id)`; every pair of rule ids that can co-occur in one
result (the dimensions are mutually exclusive within themselves) differs
first at an ASCII letter, where locale collation and code-point order
agree, so the comparator is modelled as code-point order (`strLEb`). -/

abbrev JNum := Option ℚ

/-- JavaScript `x >= c` for a number-or-null `x`. -/
def jge (x : JNum) (c : ℚ) : Bool := decide (c ≤ x.getD 0)

/-- JavaScript `x <= c` for a number-or-null `x`. -/
def jle (x : JNum) (c : ℚ) : Bool := decide (x.getD 0 ≤ c)

structure RiskRule where
  id : String
  severity : String
  why : String
deriving DecidableEq

structure RiskInputs where
  tempC : JNum
  windMs : JNum
  rain1hMm : JNum
deriving DecidableEq

structure AppliedRule where
  version : Nat
  inputs : RiskInputs
  rules : List RiskRule
deriving DecidableEq

structure RiskPack where
  decision : String
  applied_rule : AppliedRule
deriving DecidableEq

/-- Comparator used to sort matched rules by id. -/
def ruleLE (a b : RiskRule) : Prop := strLEb a.id b.id = true

instance : DecidableRel ruleLE :=
  fun a b => inferInstanceAs (Decidable (strLEb a.id b.id = true))

/-- Rule list in source push order: rain, wind, heat chain, cold chain. -/
def riskRules (tempC windMs rain1hMm : JNum) : List RiskRule :=
  (if jge rain1hMm 20 then [⟨"RAIN_20MM_1H", "CRITICAL", "rain_1h_mm>=20"⟩]
   else if jge rain1hMm 8 then [⟨"RAIN_8MM_1H", "ALERT", "rain_1h_mm>=8"⟩]
   else [])
  ++ (if jge windMs 20 then [⟨"WIND_20MS", "CRITICAL", "wind_ms>=20"⟩]
      else if jge windMs 12 then [⟨"WIND_12MS", "ALERT", "wind_ms>=12"⟩]
      else [])
  ++ (if jge tempC 38 then [⟨"TEMP_38C", "CRITICAL", "temp_c>=38"⟩]
      else if jge tempC 33 then [⟨"TEMP_33C", "ALERT", "temp_c>=33"⟩]
      else [])
  ++ (if jle tempC (-3) then [⟨"TEMP_-3C", "CRITICAL", "temp_c<=-3"⟩]
      else if jle tempC 2 then [⟨"TEMP_2C", "ALERT", "temp_c<=2"⟩]
      else [])

/-- Transcription of `decideRisk`: the decision is computed from the rules
in push order, then the rules are sorted by id and returned together with
the raw inputs and the schema version. -/
def decideRisk (tempC windMs rain1hMm : JNum) : RiskPack :=
  let rules := riskRules tempC windMs rain1hMm
  ⟨if rules.any (fun ru => ru.severity == "CRITICAL") then "CRITICAL"
    else if rules.any (fun ru => ru.severity == "ALERT") then "ALERT"
    else "NORMAL",
   ⟨1, ⟨tempC, windMs, rain1hMm⟩, List.insertionSort ruleLE rules⟩⟩

theorem perm_any_eq {α : Type} {l₁ l₂ : List α} (hp : l₁.Perm l₂) (f : α → Bool) :
    l₁.any f = l₂.any f := by
  cases h1 : l₁.any f <;> cases h2 : l₂.any f <;> try rfl
  · rw [List.any_eq_true] at h2
    obtain ⟨x, hx, hfx⟩ := h2
    rw [List.any_eq_false] at h1
    exact absurd hfx (by simpa using h1 x (hp.mem_iff.mpr hx))
  · rw [List.any_eq_true] at h1
    obtain ⟨x, hx, hfx⟩ := h1
    rw [List.any_eq_false] at h2
    exact absurd hfx (by simpa using h2 x (hp.mem_iff.mp hx))

/-- Evaluation helper: once the matched-rule list of an input is known, the
whole result of `decideRisk` follows. -/
theorem decideRisk_eq_of_rules (t w r : JNum) (L : List RiskRule)
    (hL : riskRules t w r = L) :
    decideRisk t w r
      = ⟨if L.any (fun ru => ru.severity == "CRITICAL") then "CRITICAL"
         else if L.any (fun ru => ru.severity == "ALERT") then "ALERT"
         else "NORMAL",
         ⟨1, ⟨t, w, r⟩, List.insertionSort ruleLE L⟩⟩ := by
  show RiskPack.mk
      (if (riskRules t w r).any (fun ru => ru.severity == "CRITICAL") then "CRITICAL"
       else if (riskRules t w r).any (fun ru => ru.severity == "ALERT") then "ALERT"
       else "NORMAL")
      ⟨1, ⟨t, w, r⟩, List.insertionSort ruleLE (riskRules t w r)⟩ = _
  rw [hL]

/-- C5, corrected: the rule thresholds behave as the code's table specifies
at the boundary inputs (benign values on the other dimensions), except
that `rain1hMm = 19.999` is not rule-free: it exceeds the ALERT rain
threshold (≥ 8) and matches RAIN_8MM_1H.  The combined input
`(tempC 25, windMs 25, rain1hMm 0)` yields overall CRITICAL with the
single matched rule WIND_20MS, and for every input the overall
classification is CRITICAL if any matched rule is CRITICAL, else ALERT if
any is ALERT, else NORMAL. -/
theorem decideRisk_boundaries :
    decideRisk (some 25) (some 0) (some 19.999)
      = ⟨"ALERT", ⟨1, ⟨some 25, some 0, some 19.999⟩,
          [⟨"RAIN_8MM_1H", "ALERT", "rain_1h_mm>=8"⟩]⟩⟩
    ∧ decideRisk (some 25) (some 0) (some 20)
      = ⟨"CRITICAL", ⟨1, ⟨some 25, some 0, some 20⟩,
          [⟨"RAIN_20MM_1H", "CRITICAL", "rain_1h_mm>=20"⟩]⟩⟩
    ∧ decideRisk (some 25) (some 11.999) (some 0)
      = ⟨"NORMAL", ⟨1, ⟨some 25, some 11.999, some 0⟩, []⟩⟩
    ∧ decideRisk (some 25) (some 12) (some 0)
      = ⟨"ALERT", ⟨1, ⟨some 25, some 12, some 0⟩,
          [⟨"WIND_12MS", "ALERT", "wind_ms>=12"⟩]⟩⟩
    ∧ decideRisk (some 25) (some 20) (some 0)
      = ⟨"CRITICAL", ⟨1, ⟨some 25, some 20, some 0⟩,
          [⟨"WIND_20MS", "CRITICAL", "wind_ms>=20"⟩]⟩⟩
    ∧ decideRisk (some 2) (some 0) (some 0)
      = ⟨"ALERT", ⟨1, ⟨some 2, some 0, some 0⟩,
          [⟨"TEMP_2C", "ALERT", "temp_c<=2"⟩]⟩⟩
    ∧ decideRisk (some 2.1) (some 0) (some 0)
      = ⟨"NORMAL", ⟨1, ⟨some 2.1, some 0, some 0⟩, []⟩⟩
    ∧ decideRisk (some 33) (some 0) (some 0)
      = ⟨"ALERT", ⟨1, ⟨some 33, some 0, some 0⟩,
          [⟨"TEMP_33C", "ALERT", "temp_c>=33"⟩]⟩⟩
    ∧ decideRisk (some 38) (some 0) (some 0)
      = ⟨"CRITICAL", ⟨1, ⟨some 38, some 0, some 0⟩,
          [⟨"TEMP_38C", "CRITICAL", "temp_c>=38"⟩]⟩⟩
    ∧ decideRisk (some (-3)) (some 0) (some 0)
      = ⟨"CRITICAL", ⟨1, ⟨some (-3), some 0, some 0⟩,
          [⟨"TEMP_-3C", "CRITICAL", "temp_c<=-3"⟩]⟩⟩
    ∧ decideRisk (some 25) (some 25) (some 0)
      = ⟨"CRITICAL", ⟨1, ⟨some 25, some 25, some 0⟩,
          [⟨"WIND_20MS", "CRITICAL", "wind_ms>=20"⟩]⟩⟩
    ∧ ∀ t w r : JNum,
        (decideRisk t w r).decision =
          (if ((decideRisk t w r).applied_rule.rules).any (fun ru => ru.severity == "CRITICAL")
           then "CRITICAL"
           else if ((decideRisk t w r).applied_rule.rules).any (fun ru => ru.severity == "ALERT")
           then "ALERT"
           else "NORMAL") := by
  refine ⟨
    by rw [decideRisk_eq_of_rules (some 25) (some 0) (some 19.999)
        [⟨"RAIN_8MM_1H", "ALERT", "rain_1h_mm>=8"⟩] (by norm_num [riskRules, jge, jle])]; rfl,
    by rw [decideRisk_eq_of_rules (some 25) (some 0) (some 20)
        [⟨"RAIN_20MM_1H", "CRITICAL", "rain_1h_mm>=20"⟩] (by norm_num [riskRules, jge, jle])]; rfl,
    by rw [decideRisk_eq_of_rules (some 25) (some 11.999) (some 0)
        [] (by norm_num [riskRules, jge, jle])]; rfl,
    by rw [decideRisk_eq_of_rules (some 25) (some 12) (some 0)
        [⟨"WIND_12MS", "ALERT", "wind_ms>=12"⟩] (by norm_num [riskRules, jge, jle])]; rfl,
    by rw [decideRisk_eq_of_rules (some 25) (some 20) (some 0)
        [⟨"WIND_20MS", "CRITICAL", "wind_ms>=20"⟩] (by norm_num [riskRules, jge, jle])]; rfl,
    by rw [decideRisk_eq_of_rules (some 2) (some 0) (some 0)
        [⟨"TEMP_2C", "ALERT", "temp_c<=2"⟩] (by norm_num [riskRules, jge, jle])]; rfl,
    by rw [decideRisk_eq_of_rules (some 2.1) (some 0) (some 0)
        [] (by norm_num [riskRules, jge, jle])]; rfl,
    by rw [decideRisk_eq_of_rules (some 33) (some 0) (some 0)
        [⟨"TEMP_33C", "ALERT", "temp_c>=33"⟩] (by norm_num [riskRules, jge, jle])]; rfl,
    by rw [decideRisk_eq_of_rules (some 38) (some 0) (some 0)
        [⟨"TEMP_38C", "CRITICAL", "temp_c>=38"⟩] (by norm_num [riskRules, jge, jle])]; rfl,
    by rw [decideRisk_eq_of_rules (some (-3)) (some 0) (some 0)
        [⟨"TEMP_-3C", "CRITICAL", "temp_c<=-3"⟩] (by norm_num [riskRules, jge, jle])]; rfl,
    by rw [decideRisk_eq_of_rules (some 25) (some 25) (some 0)
        [⟨"WIND_20MS", "CRITICAL", "wind_ms>=20"⟩] (by norm_num [riskRules, jge, jle])]; rfl,
    ?_⟩
  intro t w r
  show (if (riskRules t w r).any (fun ru => ru.severity == "CRITICAL") then "CRITICAL"
        else if (riskRules t w r).any (fun ru => ru.severity == "ALERT") then "ALERT"
        else "NORMAL")
      = (if (List.insertionSort ruleLE (riskRules t w r)).any
            (fun ru => ru.severity == "CRITICAL") then "CRITICAL"
         else if (List.insertionSort ruleLE (riskRules t w r)).any
            (fun ru => ru.severity == "ALERT") then "ALERT"
         else "NORMAL")
  rw [perm_any_eq (List.perm_insertionSort ruleLE (riskRules t w r)),
    perm_any_eq (List.perm_insertionSort ruleLE (riskRules t w r))]

/-- C5, counterexample to the claim as stated: at `rain1hMm = 19.999` (other
dimensions benign) the code does match a rain rule — `rain1hMm >= 8` fires
ALERT RAIN_8MM_1H — so the matched list is not empty. -/
theorem decideRisk_rain_boundary_counterexample :
    (decideRisk (some 25) (some 0) (some 19.999)).applied_rule.rules
      = [⟨"RAIN_8MM_1H", "ALERT", "rain_1h_mm>=8"⟩]
    ∧ (decideRisk (some 25) (some 0) (some 19.999)).applied_rule.rules ≠ [] := by
  rw [decideRisk_eq_of_rules (some 25) (some 0) (some 19.999)
    [⟨"RAIN_8MM_1H", "ALERT", "rain_1h_mm>=8"⟩] (by norm_num [riskRules, jge, jle])]
  exact ⟨rfl, by simp⟩

/-- C6, confirmed: for every input the returned matched-rule list is sorted
by rule id in lexicographic (code-point) order; the sort runs after all
dimensions were evaluated, so the result does not depend on the evaluation
order. -/
theorem decideRisk_rules_sorted (t w r : JNum) :
    List.Sorted (· ≤ ·) (((decideRisk t w r).applied_rule.rules).map RiskRule.id) := by
  haveI : IsTotal RiskRule ruleLE := ⟨fun a b => strLEb_total a.id b.id⟩
  haveI : IsTrans RiskRule ruleLE := ⟨fun _ _ _ => strLEb_trans⟩
  have hs : List.Sorted ruleLE (List.insertionSort ruleLE (riskRules t w r)) :=
    List.sorted_insertionSort ruleLE (riskRules t w r)
  show List.Sorted (· ≤ ·) ((List.insertionSort ruleLE (riskRules t w r)).map RiskRule.id)
  exact List.Pairwise.map RiskRule.id (fun a b hab => (strLEb_iff a.id b.id).mp hab) hs

/-- Models the worker's sensor extraction `raw?.main?.temp ?? null`
(`worker.js` line 142): an absent temperature becomes `null`, not `0`. -/
def tempCOfReading (mainTemp : Option ℚ) : JNum :=
  match mainTemp with
  | none => none
  | some v => some v

/-- C10, confirmed: a reading without temperature reaches `decideRisk` as
`tempC = null`; since `null` coerces to `0` in the comparisons, only
`null <= 2` holds among the temperature guards, so with wind and rain below
their lowest thresholds the result is ALERT with exactly the TEMP_2C rule. -/
theorem decideRisk_null_temp (w r : JNum) (hw : w.getD 0 < 12) (hr : r.getD 0 < 8) :
    tempCOfReading none = none
    ∧ decideRisk none w r
        = ⟨"ALERT", ⟨1, ⟨none, w, r⟩, [⟨"TEMP_2C", "ALERT", "temp_c<=2"⟩]⟩⟩ := by
  refine ⟨rfl, ?_⟩
  have hr20 : jge r 20 = false := by
    rw [jge]; exact decide_eq_false (not_le.mpr (by linarith))
  have hr8 : jge r 8 = false := by
    rw [jge]; exact decide_eq_false (not_le.mpr hr)
  have hw20 : jge w 20 = false := by
    rw [jge]; exact decide_eq_false (not_le.mpr (by linarith))
  have hw12 : jge w 12 = false := by
    rw [jge]; exact decide_eq_false (not_le.mpr hw)
  have hrules : riskRules none w r = [⟨"TEMP_2C", "ALERT", "temp_c<=2"⟩] := by
    rw [riskRules, hr20, hr8, hw20, hw12]
    rfl
  show RiskPack.mk
      (if (riskRules none w r).any (fun ru => ru.severity == "CRITICAL") then "CRITICAL"
       else if (riskRules none w r).any (fun ru => ru.severity == "ALERT") then "ALERT"
       else "NORMAL")
      ⟨1, ⟨none, w, r⟩, List.insertionSort ruleLE (riskRules none w r)⟩ = _
  rw [hrules]
  rfl

theorem decideRisk_null_temp_witness :
    ((some 0 : JNum).getD 0 < 12)
    ∧ ((some 0 : JNum).getD 0 < 8)
    ∧ (tempCOfReading none = none
       ∧ decideRisk none (some 0) (some 0)
           = ⟨"ALERT", ⟨1, ⟨none, some 0, some 0⟩, [⟨"TEMP_2C", "ALERT", "temp_c<=2"⟩]⟩⟩) :=
  ⟨by decide, by decide, decideRisk_null_temp (some 0) (some 0) (by decide) (by decide)⟩

/-! ## Key-order independence of the canonical encoder (C7) -/

/-- C7, confirmed: the encoder is a pure function (the same call always
returns the same string), and two objects holding the same key/value pairs
in different insertion orders (keys unique, as in any JavaScript object)
canonicalize identically, because the keys are sorted before joining. -/
theorem canonical_deterministic_and_order_independent :
    (∀ v : JsValue, stableStringify v = stableStringify v)
    ∧ ∀ (l1 l2 : List (String × JsValue)),
        l1.Perm l2 → (l1.map Prod.fst).Nodup →
        stableStringify (.obj (JsPairs.ofList l1))
          = stableStringify (.obj (JsPairs.ofList l2)) := by
  refine ⟨fun v => rfl, ?_⟩
  intro l1 l2 hperm hnodup
  have hr1 : renderPairs (JsPairs.ofList l1)
      = l1.map fun p => (p.1, stableStringify p.2) := by
    rw [renderPairs_eq_map, JsPairs.toList_ofList]
  have hr2 : renderPairs (JsPairs.ofList l2)
      = l2.map fun p => (p.1, stableStringify p.2) := by
    rw [renderPairs_eq_map, JsPairs.toList_ofList]
  show "\x7b" ++ String.intercalate ","
        ((sortRendered (renderPairs (JsPairs.ofList l1))).map renderKV) ++ "\x7d"
      = "\x7b" ++ String.intercalate ","
        ((sortRendered (renderPairs (JsPairs.ofList l2))).map renderKV) ++ "\x7d"
  rw [hr1, hr2]
  suffices hs : sortRendered (l1.map fun p => (p.1, stableStringify p.2))
      = sortRendered (l2.map fun p => (p.1, stableStringify p.2)) by rw [hs]
  haveI : IsTotal (String × String) keyLE := ⟨fun a b => strLEb_total a.1 b.1⟩
  haveI : IsTrans (String × String) keyLE := ⟨fun _ _ _ => strLEb_trans⟩
  haveI : IsAntisymm (String × String) (fun a b : String × String => a.1 < b.1) :=
    ⟨fun _ _ h1 h2 => absurd h2 (lt_asymm h1)⟩
  have hpermf : (l1.map fun p => (p.1, stableStringify p.2)).Perm
      (l2.map fun p => (p.1, stableStringify p.2)) := hperm.map _
  have hperm12 : (sortRendered (l1.map fun p => (p.1, stableStringify p.2))).Perm
      (sortRendered (l2.map fun p => (p.1, stableStringify p.2))) :=
    (List.perm_insertionSort keyLE _).trans
      (hpermf.trans (List.perm_insertionSort keyLE _).symm)
  have hkeys1 : ((l1.map fun p => (p.1, stableStringify p.2)).map Prod.fst).Nodup := by
    rw [List.map_map]
    exact hnodup
  have strict : ∀ L : List (String × JsValue),
      ((L.map fun p => (p.1, stableStringify p.2)).map Prod.fst).Nodup →
      List.Pairwise (fun a b : String × String => a.1 < b.1)
        (sortRendered (L.map fun p => (p.1, stableStringify p.2))) := by
    intro L hkeys
    have hsorted : List.Sorted keyLE (sortRendered (L.map fun p => (p.1, stableStringify p.2))) :=
      List.sorted_insertionSort keyLE _
    have hnod : ((sortRendered (L.map fun p => (p.1, stableStringify p.2))).map Prod.fst).Nodup :=
      (((List.perm_insertionSort keyLE _).map Prod.fst).nodup_iff).mpr hkeys
    have hne : List.Pairwise (fun a b : String × String => a.1 ≠ b.1)
        (sortRendered (L.map fun p => (p.1, stableStringify p.2))) :=
      List.pairwise_map.mp hnod
    exact (hsorted.and hne).imp fun hab =>
      lt_of_le_of_ne ((strLEb_iff _ _).mp hab.1) hab.2
  have hkeys2 : ((l2.map fun p => (p.1, stableStringify p.2)).map Prod.fst).Nodup := by
    rw [List.map_map]
    exact ((hperm.map Prod.fst).nodup_iff).mp hnodup
  exact List.eq_of_perm_of_sorted hperm12 (strict l1 hkeys1) (strict l2 hkeys2)

theorem canonical_order_independent_witness :
    ([("b", JsValue.null), ("a", JsValue.bool true)] : List (String × JsValue)).Perm
      [("a", JsValue.bool true), ("b", JsValue.null)]
    ∧ (([("b", JsValue.null), ("a", JsValue.bool true)] : List (String × JsValue)).map
        Prod.fst).Nodup
    ∧ stableStringify (.obj (JsPairs.ofList [("b", JsValue.null), ("a", JsValue.bool true)]))
        = stableStringify (.obj (JsPairs.ofList [("a", JsValue.bool true), ("b", JsValue.null)])) := by
  refine ⟨List.Perm.swap _ _ _, by decide, ?_⟩
  exact canonical_deterministic_and_order_independent.2
    [("b", JsValue.null), ("a", JsValue.bool true)]
    [("a", JsValue.bool true), ("b", JsValue.null)]
    (List.Perm.swap _ _ _) (by decide)

/-! ## Cyclic values: heap-reference model (C8)

The tree type `JsValue` cannot express a cyclic JavaScript value, so the
encoder is replayed over an explicit heap: addresses are `Nat`, a node's
children are references, and each recursive call of the transcribed
encoder consumes one unit of `fuel` — the finite JavaScript call stack.  A
run that returns `none` for every fuel is exactly the source's fate on a
cycle: the recursion never returns a string and the engine aborts the
operation with a stack-overflow `RangeError` (the spec's fatal
`EncodingError`), with no truncated output. -/

inductive HeapVal where
  | null
  | bool (b : Bool)
  | num (q : ℚ)
  | nonfinite
  | str (s : String)
  | arr (elems : List Nat)
  | obj (fields : List (String × Nat))

/-- Child references of a heap node. -/
def heapChildren : HeapVal → List Nat
  | .arr es => es
  | .obj fs => fs.map Prod.snd
  | _ => []

/-- The canonical encoder over a heap: the same case analysis as
`stableStringify`, with child values fetched through references. -/
def stableStringifyRef (g : Nat → HeapVal) : Nat → Nat → Option String
  | 0, _ => none
  | fuel + 1, r =>
    match g r with
    | .null => some "null"
    | .bool b => some (cond b "true" "false")
    | .num q => some (ratNumeral q)
    | .nonfinite => some "null"
    | .str s => some (jsonQuote s)
    | .arr es =>
        (es.mapM (stableStringifyRef g fuel)).map fun ss =>
          "[" ++ String.intercalate "," ss ++ "]"
    | .obj fs =>
        (fs.mapM (fun kv => (stableStringifyRef g fuel kv.2).map fun s => (kv.1, s))).map
          fun rendered =>
            "\x7b" ++ String.intercalate "," ((sortRendered rendered).map renderKV) ++ "\x7d"

def HeapEdge (g : Nat → HeapVal) (a b : Nat) : Prop := b ∈ heapChildren (g a)

def HeapReaches (g : Nat → HeapVal) : Nat → Nat → Prop := Relation.ReflTransGen (HeapEdge g)

/-- Some node on a cycle is reachable from `root`. -/
def CycleReachable (g : Nat → HeapVal) (root : Nat) : Prop :=
  ∃ v w, HeapReaches g root v ∧ HeapEdge g v w ∧ HeapReaches g w v

theorem mapM_eq_none_of_mem {α β : Type} (f : α → Option β) :
    ∀ (l : List α) (x : α), x ∈ l → f x = none → l.mapM f = none := by
  intro l
  induction l with
  | nil => intro x hx; cases hx
  | cons a tl ih =>
    intro x hx hfx
    rw [List.mapM_cons]
    cases hx with
    | head => rw [hfx]; rfl
    | tail _ hx' =>
      rw [ih x hx' hfx]
      cases f a <;> rfl

theorem stableStringifyRef_none_of_child_none (g : Nat → HeapVal) (fuel r c : Nat)
    (hc : HeapEdge g r c) (hnone : stableStringifyRef g fuel c = none) :
    stableStringifyRef g (fuel + 1) r = none := by
  rw [HeapEdge] at hc
  rw [stableStringifyRef]
  cases hg : g r with
  | null => rw [hg] at hc; simp [heapChildren] at hc
  | bool b => rw [hg] at hc; simp [heapChildren] at hc
  | num q => rw [hg] at hc; simp [heapChildren] at hc
  | nonfinite => rw [hg] at hc; simp [heapChildren] at hc
  | str s => rw [hg] at hc; simp [heapChildren] at hc
  | arr es =>
    rw [hg] at hc
    simp only [heapChildren] at hc
    show Option.map (fun ss => "[" ++ String.intercalate "," ss ++ "]")
        (es.mapM (stableStringifyRef g fuel)) = none
    rw [mapM_eq_none_of_mem (stableStringifyRef g fuel) es c hc hnone]
    rfl
  | obj fs =>
    rw [hg] at hc
    simp only [heapChildren] at hc
    obtain ⟨kv, hkv, hsnd⟩ := List.mem_map.mp hc
    show Option.map
        (fun rendered =>
          "\x7b" ++ String.intercalate "," ((sortRendered rendered).map renderKV) ++ "\x7d")
        (fs.mapM fun kv => Option.map (fun s => (kv.1, s)) (stableStringifyRef g fuel kv.2))
        = none
    rw [mapM_eq_none_of_mem _ fs kv hkv (by rw [hsnd, hnone]; rfl)]
    rfl

theorem stableStringifyRef_cyclic_aux (g : Nat → HeapVal) :
    ∀ (fuel root : Nat), CycleReachable g root → stableStringifyRef g fuel root = none := by
  intro fuel
  induction fuel with
  | zero => intro root _; rfl
  | succ fuel ih =>
    intro root hcyc
    obtain ⟨v, w, hrv, hvw, hwv⟩ := hcyc
    rcases Relation.ReflTransGen.cases_head hrv with heq | ⟨c, hrc, hcv⟩
    · subst heq
      exact stableStringifyRef_none_of_child_none g fuel root w hvw
        (ih w ⟨root, w, hwv, hvw, hwv⟩)
    · exact stableStringifyRef_none_of_child_none g fuel root c hrc
        (ih c ⟨v, w, hcv, hvw, hwv⟩)

/-- C8, confirmed: on any heap value from which a cycle is reachable, the
encoder returns no string for any stack budget — the operation always dies
with the fatal stack-overflow error instead of silently truncating. -/
theorem stableStringifyRef_cyclic_none (g : Nat → HeapVal) (root : Nat)
    (hcyc : CycleReachable g root) (fuel : Nat) :
    stableStringifyRef g fuel root = none :=
  stableStringifyRef_cyclic_aux g fuel root hcyc

/-- Heap with a self-referential object at address 0. -/
def loopHeap : Nat → HeapVal :=
  fun n =>
    match n with
    | 0 => .obj [("self", 0)]
    | _ => .null

theorem stableStringifyRef_cyclic_none_witness :
    CycleReachable loopHeap 0 ∧ stableStringifyRef loopHeap 5 0 = none :=
  ⟨⟨0, 0, Relation.ReflTransGen.refl,
     (by decide : (0 : Nat) ∈ heapChildren (loopHeap 0)), Relation.ReflTransGen.refl⟩,
   stableStringifyRef_cyclic_none loopHeap 0
     ⟨0, 0, Relation.ReflTransGen.refl,
      (by decide : (0 : Nat) ∈ heapChildren (loopHeap 0)), Relation.ReflTransGen.refl⟩ 5⟩

/-! ## Concurrency: the unserialized append pair (C9) -/

/-- One database-level schedule that the lock-free code permits: the
`SELECT`s of two concurrent `appendLedgerEvent` calls both complete before
either `INSERT` runs.  Each `pool.query` is an independent await on a
pooled connection; nothing in the source wraps the read-then-insert pair in
a transaction, lock, or retry, so this interleaving is legal. -/
def appendPairBothReadFirst (h : String → String) (tA : String) (pA : JsValue)
    (tB : String) (pB : JsValue) (rows : List Row) : Option (List Row) :=
  (readLastEventHash rows).bind fun prevA =>
  (readLastEventHash rows).bind fun prevB =>
  (insertLedgerRow rows tA pA prevA (h (canonicalFor prevA tA pA))).bind fun rows1 =>
  insertLedgerRow rows1 tB pB prevB (h (canonicalFor prevB tB pB))

/-- C9, code-bug evidence: under that schedule, two appends with distinct
payloads onto the bootstrapped ledger both read the genesis hash and both
commit (their event hashes differ, so the only guard — the uniqueness
constraint on `event_hash` — does not fire).  The resulting ledger carries
the genesis hash as `prev_hash` twice: the chain is forked, and the
verifier itself rejects the ledger (`prev_hash_link_broken`). -/
theorem concurrent_appends_fork_chain :
    ((appendPairBothReadFirst idHash "E" (JsValue.str "a") "E" (JsValue.str "b")
        (genesisLedger idHash)).getD []).map Row.prev_hash
      = ["0", (genesisRow idHash).event_hash, (genesisRow idHash).event_hash]
    ∧ (verifyLedgerEvents idHash ((appendPairBothReadFirst idHash "E" (JsValue.str "a") "E"
        (JsValue.str "b") (genesisLedger idHash)).getD [])).ok = false :=
  ⟨rfl, rfl⟩

/-! ## Projection engine (C4)

`location_state` (CurrentStateProjection) is keyed by `location_id`
(primary key); `weather_snapshots` (HistoryProjection) has a serial primary
key and — per `init.sql` lines 36-44 — no uniqueness constraint on
`ledger_hash`.  The model carries the clock (`now`) explicitly, standing
for the SQL `now()` written into `updated_at`/`created_at`. -/

structure LocationState where
  location_id : String
  updated_at : Nat
  decision : String
  applied_rule : JsValue
  raw_weather : JsValue
  ledger_hash : String

structure WeatherSnapshot where
  id : Nat
  location_id : String
  created_at : Nat
  decision : String
  applied_rule : JsValue
  raw_weather : JsValue
  ledger_hash : String

structure ProjDb where
  location_state : List LocationState
  weather_snapshots : List WeatherSnapshot

/-- Transcription of `applyProjections` (`worker.js` lines 104-122): an
upsert (`on conflict (location_id) do update`, replacing every column
including `updated_at := now()`) followed by a plain `INSERT` into
`weather_snapshots`. -/
def applyProjections (db : ProjDb) (locationId decision : String)
    (applied_rule raw_weather : JsValue) (ledger_hash : String) (now : Nat) : ProjDb :=
  let updated : LocationState :=
    ⟨locationId, now, decision, applied_rule, raw_weather, ledger_hash⟩
  let ls :=
    if db.location_state.any (fun s => s.location_id == locationId)
    then db.location_state.map (fun s => if s.location_id == locationId then updated else s)
    else db.location_state ++ [updated]
  ⟨ls, db.weather_snapshots
      ++ [⟨db.weather_snapshots.length + 1, locationId, now, decision, applied_rule,
           raw_weather, ledger_hash⟩]⟩

/-- C4, code-bug evidence: applying the same projection update twice for
the same ledger hash leaves two `weather_snapshots` rows carrying that
hash — the insert is unconditional and the schema has no uniqueness on
`ledger_hash` — where the claim requires exactly one. -/
theorem applyProjections_duplicates_history :
    ((applyProjections
        (applyProjections ⟨[], []⟩ "L1" "NORMAL" JsValue.null JsValue.null "H1" 1)
        "L1" "NORMAL" JsValue.null JsValue.null "H1" 2).weather_snapshots.filter
          (fun s => s.ledger_hash == "H1")).length = 2
    ∧ ¬ ((applyProjections
        (applyProjections ⟨[], []⟩ "L1" "NORMAL" JsValue.null JsValue.null "H1" 1)
        "L1" "NORMAL" JsValue.null JsValue.null "H1" 2).weather_snapshots.filter
          (fun s => s.ledger_hash == "H1")).length = 1 := by
  refine ⟨rfl, fun hcontra => ?_⟩
  have h2 : ((applyProjections
      (applyProjections ⟨[], []⟩ "L1" "NORMAL" JsValue.null JsValue.null "H1" 1)
      "L1" "NORMAL" JsValue.null JsValue.null "H1" 2).weather_snapshots.filter
        (fun s => s.ledger_hash == "H1")).length = 2 := rfl
  omega

end ClimaRisk
